import Mathlib

/-!
Verification of the PyImage repository's label-aggregation core
(`create_geodataframe_with_multipolygons` in
`src/pygeojson/python/mask_to_polygons.py` and `process_mask` in
`src/pygeojson/CLI/mask_to_polygons.py`), together with the dtype
selection cascade of `src/pyimg/CLI/expand_mask_singlemask.py`, the
factors-length assertion of `src/pyimg/python/rescale_dask.py`, and the
two pyramid-level slicing schemes of
`src/pyimg/CLI/downscale_pyramidize_image_dask.py`.

A labeled raster is a 2-D grid of integers (`List (List Int)`); value 0
is background.  The external shape tracer (`rasterio.features.shapes`
called with `mask = (array > 0)`) is modelled as a row-major scan that
flood-fills each 4-connected run of equal non-zero values into one
fragment, a fragment being the list of cells it covers; each fragment
carries the integer value of the run it was traced from.  The repository
code itself — the grouping dictionary, the Polygon/MultiPolygon choice,
the GeoDataFrame construction with its fixed CRS, and the `ndim`
reduction in `process_mask` — is embedded directly.
-/

/-- A cell of the raster: (row index, column index). -/
abbrev Cell := Nat × Nat

/-- A 2-D labeled raster: a list of rows of integers.  Background is 0. -/
abbrev Raster := List (List Int)

/-- The value of the raster at a cell; cells outside the grid read as 0
(they are masked out, exactly as `mask = (array > 0)` masks them). -/
def cellValue (r : Raster) (c : Cell) : Int :=
  ((r[c.1]?.bind (fun row => row[c.2]?)).getD 0)

/-- All in-bounds cells of the raster, in row-major order. -/
def allCells (r : Raster) : List Cell :=
  (List.range r.length).flatMap (fun i =>
    (List.range (r[i]?.getD []).length).map (fun j => (i, j)))

/-- The 4-neighbourhood of a cell (rasterio's default connectivity). -/
def neighborCells (c : Cell) : List Cell :=
  [(c.1 + 1, c.2), (c.1, c.2 + 1)]
    ++ (if 0 < c.1 then [(c.1 - 1, c.2)] else [])
    ++ (if 0 < c.2 then [(c.1, c.2 - 1)] else [])

/-- Fuel-bounded flood fill collecting the 4-connected run of cells whose
value equals `v`.  `frontier` is the worklist, `visited` the cells already
accepted, in acceptance order. -/
def floodAux (r : Raster) (v : Int) :
    Nat → List Cell → List Cell → List Cell
  | 0, _, visited => visited
  | _ + 1, [], visited => visited
  | fuel + 1, c :: frontier, visited =>
    if c ∈ visited then floodAux r v fuel frontier visited
    else if cellValue r c = v then
      floodAux r v fuel (frontier ++ neighborCells c) (visited ++ [c])
    else floodAux r v fuel frontier visited

/-- Enough fuel to exhaust any flood fill on `r`: every accepted cell pushes
four neighbours, and at most `r.flatten.length` cells can be accepted. -/
def floodFuel (r : Raster) : Nat := 4 * r.flatten.length + 4

/-- The connected component (shape fragment) seeded at a cell. -/
def componentOf (r : Raster) (seed : Cell) : List Cell :=
  floodAux r (cellValue r seed) (floodFuel r) [seed] []

/-- Row-major scan emitting one `(fragment, value)` pair per connected run
of equal non-zero values, skipping cells already swallowed by an earlier
fragment.  This models the lazy sequence produced by
`shapes(array, mask=(array > 0))`. -/
def traceAux (r : Raster) : List Cell → List Cell → List (List Cell × Int)
  | [], _ => []
  | c :: rest, visited =>
    if cellValue r c ≠ 0 ∧ c ∉ visited then
      (componentOf r c, cellValue r c) :: traceAux r rest (visited ++ componentOf r c)
    else traceAux r rest visited

/-- The shape trace of a raster: the `for shape_dict, cell_id in shapes(...)`
sequence of the source, as `(fragment, label)` pairs. -/
def traceShapes (r : Raster) : List (List Cell × Int) :=
  traceAux r (allCells r) []

/-- One step of the grouping dictionary `cell_geometries`: append fragment
`f` to the entry of label `v`, creating the entry at the end when absent —
exactly the insertion-ordered Python dict of the source. -/
def insertFrag (acc : List (Int × List (List Cell))) (v : Int)
    (f : List Cell) : List (Int × List (List Cell)) :=
  match acc with
  | [] => [(v, [f])]
  | (w, fs) :: rest =>
    if w = v then (w, fs ++ [f]) :: rest else (w, fs) :: insertFrag rest v f

/-- The grouping loop of the source: fold the traced fragments into the
insertion-ordered dictionary from label to fragment list. -/
def groupByLabel (frags : List (List Cell × Int)) :
    List (Int × List (List Cell)) :=
  frags.foldl (fun acc p => insertFrag acc p.2 p.1) []

/-- The fragment list stored for label `v` ([] when absent). -/
def groupFrags (acc : List (Int × List (List Cell))) (v : Int) :
    List (List Cell) :=
  match acc with
  | [] => []
  | (w, fs) :: rest => if w = v then fs else groupFrags rest v

/-- Output geometry: a single polygon (a fragment, identified with the set
of cells it covers) or a multi-part geometry keeping fragments distinct. -/
inductive Geometry where
  | polygon (cells : List Cell)
  | multiPolygon (parts : List (List Cell))
deriving DecidableEq

/-- The `if len(polygons) == 1 ... else MultiPolygon(polygons)` choice of
the source. -/
def geometryFor (fs : List (List Cell)) : Geometry :=
  match fs with
  | [f] => Geometry.polygon f
  | _ => Geometry.multiPolygon fs

/-- The output table: parallel `cellId` and `geometry` columns plus the
CRS tag, as built by `gpd.GeoDataFrame({...}, crs="EPSG:4326")`. -/
structure GeoDataFrame where
  cellIds : List Int
  geometries : List Geometry
  crs : String
deriving DecidableEq

/-- Embedding of `create_geodataframe_with_multipolygons` from
`src/pygeojson/python/mask_to_polygons.py`: trace shapes, group by label
in insertion order, wrap multi-fragment labels into MultiPolygons, and
attach the fixed CRS. -/
def create_geodataframe_with_multipolygons (r : Raster) : GeoDataFrame :=
  let groups := groupByLabel (traceShapes r)
  { cellIds := groups.map (fun p => p.1)
  , geometries := groups.map (fun p => geometryFor p.2)
  , crs := "EPSG:4326" }

/-- The rows of the output table: label paired with geometry. -/
def records (g : GeoDataFrame) : List (Int × Geometry) :=
  g.cellIds.zip g.geometries

/-- An n-dimensional mask as loaded by `dask_image.imread.imread`
(always at least 2-D): either a 2-D raster, or a stack whose first slice
(`mask[0]`) is `first`; `nrest` counts the remaining slices, whose data
`process_mask` never reads. -/
inductive NDMask where
  | twoD (r : Raster)
  | stacked (first : NDMask) (nrest : Nat)
deriving DecidableEq

/-- Number of dimensions of the mask (`mask.ndim`). -/
def NDMask.ndim : NDMask → Nat
  | .twoD _ => 2
  | .stacked first _ => first.ndim + 1

/-- `mask[0]`: the first slice along the leading axis.  On a 2-D mask this
branch of the model is never taken (`process_mask` only slices when
`ndim > 2`), so it is left as the identity there. -/
def NDMask.sliceFirst : NDMask → NDMask
  | .twoD r => .twoD r
  | .stacked first _ => first

/-- Embedding of `process_mask` from `src/pygeojson/CLI/mask_to_polygons.py`:
take the first channel when `mask.ndim > 2`, then run the aggregation;
`shapes` (and hence the whole call) fails unless the array is 2-D by then,
modelled as `none`. -/
def process_mask (m : NDMask) : Option GeoDataFrame :=
  let m2 := if m.ndim > 2 then m.sliceFirst else m
  match m2 with
  | .twoD r => some (create_geodataframe_with_multipolygons r)
  | _ => none

/-- Unsigned integer dtypes of the output-raster cast in `expand_mask`. -/
inductive Dtype where
  | uint8
  | uint16
  | uint32
  | uint64
deriving DecidableEq

/-- `np.iinfo(dtype).max`. -/
def dtypeMax : Dtype → Nat
  | .uint8 => 255
  | .uint16 => 65535
  | .uint32 => 4294967295
  | .uint64 => 18446744073709551615

/-- The dynamic dtype cascade of `expand_mask` in
`src/pyimg/CLI/expand_mask_singlemask.py`: the chain of
`elif max_value <= np.iinfo(...).max` casts; when no guard fires
(max above the uint64 range) no cast happens, modelled as `none`. -/
def select_dtype (max_value : Nat) : Option Dtype :=
  if max_value ≤ dtypeMax .uint8 then some .uint8
  else if max_value ≤ dtypeMax .uint16 then some .uint16
  else if max_value ≤ dtypeMax .uint32 then some .uint32
  else if max_value ≤ dtypeMax .uint64 then some .uint64
  else none

/-- Modelled from the spec: `fn choose_width(max_value) -> {u8,u16,u32,u64}`,
the narrowest unsigned width whose maximum is at least `max_value`
(defaulting to the widest). -/
def choose_width (max_value : Nat) : Dtype :=
  if max_value ≤ 255 then .uint8
  else if max_value ≤ 65535 then .uint16
  else if max_value ≤ 4294967295 then .uint32
  else .uint64

/-- The factors-length assertion of `downscale_dask` in
`src/pyimg/python/rescale_dask.py`:
`assert len(factors) != len(dask_array.shape)` — `true` means the assert
passes, `false` means it raises `AssertionError`.  `shape` is the dask
array's shape and `factors` its per-axis zoom factors. -/
def downscale_dask_lenCheck (shape : List Nat) (factors : List ℚ) : Bool :=
  factors.length != shape.length

/-- Stride slicing `xs[::n]` of a 1-D sequence: the elements at indices
0, n, 2n, … . -/
def everyNth (n : Nat) : List α → List α
  | [] => []
  | x :: xs => x :: everyNth n (xs.drop (n - 1))
termination_by xs => xs.length
decreasing_by simp only [List.length_cons, List.length_drop]; omega

/-- Stride slicing `a[::n, ::n]` of a 2-D array, as used for the pyramid
levels of `scale_channel_and_write`. -/
def strideSlice2D (n : Nat) (a : List (List Int)) : List (List Int) :=
  (everyNth n a).map (everyNth n)

/-- Spec-side definition (for the row-order claim): one step of first-seen
label ordering — record a label unless already recorded. -/
def firstSeenStep (ks : List Int) (v : Int) : List Int :=
  if v ∈ ks then ks else ks ++ [v]

/-- Spec-side definition, following the spec's words "preserving first-seen
order of labels as encountered during the trace": the deduplicated label
sequence in order of first occurrence. -/
def firstSeenOrder (xs : List Int) : List Int :=
  xs.foldl firstSeenStep []

/-! ### Basic lemmas about cell values and the flood fill -/

/-- A non-zero cell value is an entry of the raster. -/
theorem cellValue_mem_flatten (r : Raster) (c : Cell) (h : cellValue r c ≠ 0) :
    cellValue r c ∈ r.flatten := by
  unfold cellValue at *
  cases hrow : r[c.1]? with
  | none => simp [hrow] at h
  | some row =>
    cases hv : row[c.2]? with
    | none => simp [hrow, hv] at h
    | some v =>
      simp only [hrow, hv, Option.some_bind, Option.getD_some]
      exact List.mem_flatten.mpr
        ⟨row, List.getElem?_mem hrow, List.getElem?_mem hv⟩

/-- Every raster entry is the value of some in-bounds cell. -/
theorem exists_cell_of_mem_flatten (r : Raster) (v : Int) (h : v ∈ r.flatten) :
    ∃ c, c ∈ allCells r ∧ cellValue r c = v := by
  rcases List.mem_flatten.mp h with ⟨row, hrow, hv⟩
  rcases List.mem_iff_getElem?.mp hrow with ⟨i, hi⟩
  rcases List.mem_iff_getElem?.mp hv with ⟨j, hj⟩
  refine ⟨(i, j), ?_, ?_⟩
  · simp only [allCells, List.mem_flatMap, List.mem_range, List.mem_map]
    refine ⟨i, ?_, j, ?_, rfl⟩
    · exact (List.getElem?_eq_some.mp hi).1
    · rw [hi]; exact (List.getElem?_eq_some.mp hj).1
  · simp [cellValue, hi, hj]

/-- Flood-fill soundness: every cell the fill returns was either already
visited or carries the value being flooded. -/
theorem floodAux_sound (r : Raster) (v : Int) :
    ∀ (fuel : Nat) (frontier visited : List Cell) (x : Cell),
      x ∈ floodAux r v fuel frontier visited → x ∈ visited ∨ cellValue r x = v := by
  intro fuel
  induction fuel with
  | zero =>
    intro frontier visited x hx
    exact Or.inl (by simpa [floodAux] using hx)
  | succ fuel ih =>
    intro frontier visited x hx
    cases frontier with
    | nil => exact Or.inl (by simpa [floodAux] using hx)
    | cons c fr =>
      rw [floodAux] at hx
      by_cases hc : c ∈ visited
      · rw [if_pos hc] at hx
        exact ih fr visited x hx
      · rw [if_neg hc] at hx
        by_cases hv : cellValue r c = v
        · rw [if_pos hv] at hx
          rcases ih _ _ x hx with h | h
          · rcases List.mem_append.mp h with h | h
            · exact Or.inl h
            · rw [List.mem_singleton.mp h]
              exact Or.inr hv
          · exact Or.inr h
        · rw [if_neg hv] at hx
          exact ih fr visited x hx

/-- Every label the trace emits is a non-zero value of the raster. -/
theorem traceAux_label_sound (r : Raster) :
    ∀ (cells visited : List Cell) (p : List Cell × Int),
      p ∈ traceAux r cells visited → p.2 ≠ 0 ∧ p.2 ∈ r.flatten := by
  intro cells
  induction cells with
  | nil => intro visited p hp; simp [traceAux] at hp
  | cons c rest ih =>
    intro visited p hp
    rw [traceAux] at hp
    by_cases hg : cellValue r c ≠ 0 ∧ c ∉ visited
    · rw [if_pos hg] at hp
      rcases List.mem_cons.mp hp with h | h
      · subst h
        exact ⟨hg.1, cellValue_mem_flatten r c hg.1⟩
      · exact ih _ p h
    · rw [if_neg hg] at hp
      exact ih _ p hp

/-- Every non-zero cell not yet visited contributes its value to the labels
of the trace: either the scan seeds a fragment there, or a fragment seeded
earlier in the scan already swallowed the cell, and flood-fill soundness
forces that fragment's label to be the cell's value. -/
theorem traceAux_label_complete (r : Raster) :
    ∀ (cells visited : List Cell) (c : Cell),
      c ∈ cells → cellValue r c ≠ 0 → c ∉ visited →
      cellValue r c ∈ (traceAux r cells visited).map (fun p => p.2) := by
  intro cells
  induction cells with
  | nil => intro visited c hc; simp at hc
  | cons c0 rest ih =>
    intro visited c hc hv hnv
    rw [traceAux]
    by_cases hg : cellValue r c0 ≠ 0 ∧ c0 ∉ visited
    · rw [if_pos hg]
      simp only [List.map_cons]
      rcases List.mem_cons.mp hc with h | h
      · subst h
        exact List.mem_cons_self _ _
      · by_cases hcomp : c ∈ componentOf r c0
        · have hs := floodAux_sound r (cellValue r c0) (floodFuel r) [c0] [] c
            (by rwa [componentOf] at hcomp)
          rcases hs with h' | h'
          · simp at h'
          · rw [h']
            exact List.mem_cons_self _ _
        · have hnv2 : c ∉ visited ++ componentOf r c0 := by
            intro hmem
            rcases List.mem_append.mp hmem with h' | h'
            exacts [hnv h', hcomp h']
          exact List.mem_cons_of_mem _ (ih _ c h hv hnv2)
    · rw [if_neg hg]
      rcases List.mem_cons.mp hc with h | h
      · subst h
        exact absurd ⟨hv, hnv⟩ hg
      · exact ih _ c h hv hnv

/-! ### Lemmas about the grouping dictionary -/

/-- Inserting a fragment leaves the key column unchanged when the label is
already present, and appends the label at the end otherwise. -/
theorem insertFrag_keys (acc : List (Int × List (List Cell))) (v : Int)
    (f : List Cell) :
    (insertFrag acc v f).map (fun p => p.1) =
      firstSeenStep (acc.map (fun p => p.1)) v := by
  induction acc with
  | nil => simp [insertFrag, firstSeenStep]
  | cons q rest ih =>
    obtain ⟨w, fs⟩ := q
    by_cases hw : w = v
    · subst hw
      simp [insertFrag, firstSeenStep]
    · simp only [insertFrag, if_neg hw, List.map_cons, ih, firstSeenStep]
      by_cases hv : v ∈ rest.map (fun p => p.1)
      · simp [hv, List.mem_cons, Ne.symm hw]
      · simp [hv, List.mem_cons, Ne.symm hw]

/-- The key column of the grouping fold is the first-seen ordering of the
label column of the input. -/
theorem groupByLabel_keys_aux (frags : List (List Cell × Int)) :
    ∀ acc : List (Int × List (List Cell)),
      (frags.foldl (fun a p => insertFrag a p.2 p.1) acc).map (fun p => p.1) =
        (frags.map (fun p => p.2)).foldl firstSeenStep (acc.map (fun p => p.1)) := by
  induction frags with
  | nil => intro acc; simp
  | cons q rest ih =>
    intro acc
    simp only [List.foldl_cons, List.map_cons]
    rw [ih, insertFrag_keys]

/-- The labels of the aggregation output are the traced labels in
first-seen order. -/
theorem groupByLabel_keys (frags : List (List Cell × Int)) :
    (groupByLabel frags).map (fun p => p.1) =
      firstSeenOrder (frags.map (fun p => p.2)) := by
  rw [groupByLabel, firstSeenOrder, groupByLabel_keys_aux]
  rfl

/-- Membership in a first-seen fold. -/
theorem mem_foldl_firstSeenStep (xs : List Int) :
    ∀ (acc : List Int) (v : Int),
      v ∈ xs.foldl firstSeenStep acc ↔ v ∈ acc ∨ v ∈ xs := by
  induction xs with
  | nil => intro acc v; simp
  | cons x rest ih =>
    intro acc v
    simp only [List.foldl_cons, ih, firstSeenStep]
    by_cases hx : x ∈ acc
    · rw [if_pos hx]
      simp only [List.mem_cons]
      constructor
      · rintro (h | h)
        exacts [Or.inl h, Or.inr (Or.inr h)]
      · rintro (h | rfl | h)
        exacts [Or.inl h, Or.inl hx, Or.inr h]
    · rw [if_neg hx]
      simp only [List.mem_append, List.mem_singleton, List.mem_cons]
      tauto

/-- A first-seen fold starting from a duplicate-free accumulator stays
duplicate-free. -/
theorem nodup_foldl_firstSeenStep (xs : List Int) :
    ∀ acc : List Int, acc.Nodup → (xs.foldl firstSeenStep acc).Nodup := by
  induction xs with
  | nil => intro acc h; simpa using h
  | cons x rest ih =>
    intro acc h
    simp only [List.foldl_cons]
    apply ih
    unfold firstSeenStep
    by_cases hx : x ∈ acc
    · simpa [hx] using h
    · rw [if_neg hx]
      simp only [List.nodup_append, List.nodup_cons, List.nodup_nil]
      refine ⟨h, by simp, ?_⟩
      simp only [List.disjoint_singleton]
      exact hx

/-- Inserting a fragment appends it to the stored list of its own label and
leaves every other label's list unchanged. -/
theorem groupFrags_insertFrag (acc : List (Int × List (List Cell)))
    (w v : Int) (f : List Cell) :
    groupFrags (insertFrag acc w f) v =
      if w = v then groupFrags acc v ++ [f] else groupFrags acc v := by
  induction acc with
  | nil =>
    by_cases h : w = v <;> simp [insertFrag, groupFrags, h]
  | cons q rest ih =>
    obtain ⟨u, fs⟩ := q
    by_cases hu : u = w
    · subst hu
      by_cases huv : u = v
      · subst huv
        simp [insertFrag, groupFrags]
      · simp [insertFrag, groupFrags, huv]
    · by_cases huv : u = v
      · subst huv
        have hwu : ¬w = u := fun h => hu h.symm
        simp [insertFrag, hu, groupFrags, hwu]
      · simp [insertFrag, hu, groupFrags, huv, ih]

/-- The grouping fold stores, for each label, exactly the traced fragments
of that label, in trace order. -/
theorem groupFrags_groupByLabel_aux (frags : List (List Cell × Int)) :
    ∀ (acc : List (Int × List (List Cell))) (v : Int),
      groupFrags (frags.foldl (fun a p => insertFrag a p.2 p.1) acc) v =
        groupFrags acc v ++ ((frags.filter (fun p => p.2 = v)).map (fun p => p.1)) := by
  induction frags with
  | nil => intro acc v; simp
  | cons q rest ih =>
    intro acc v
    simp only [List.foldl_cons]
    rw [ih, groupFrags_insertFrag]
    by_cases hq : q.2 = v
    · rw [if_pos hq]
      simp [List.filter_cons, hq]
    · rw [if_neg hq]
      simp [List.filter_cons, hq]

/-- `groupByLabel` stores for label `v` exactly the fragments traced with
label `v`, in trace order. -/
theorem groupFrags_groupByLabel (frags : List (List Cell × Int)) (v : Int) :
    groupFrags (groupByLabel frags) v =
      (frags.filter (fun p => p.2 = v)).map (fun p => p.1) := by
  rw [groupByLabel, groupFrags_groupByLabel_aux]
  rfl

/-- A label present in the key column owns the entry holding its stored
fragment list. -/
theorem mem_entry_of_mem_keys (acc : List (Int × List (List Cell))) (v : Int)
    (h : v ∈ acc.map (fun p => p.1)) : (v, groupFrags acc v) ∈ acc := by
  induction acc with
  | nil => simp at h
  | cons q rest ih =>
    obtain ⟨w, fs⟩ := q
    by_cases hw : w = v
    · subst hw
      simp [groupFrags]
    · simp only [List.map_cons, List.mem_cons] at h
      rcases h with h | h
      · exact absurd h.symm hw
      · simp only [groupFrags, if_neg hw]
        exact List.mem_cons_of_mem _ (ih h)

/-- The rows of the aggregation output, one per grouped label. -/
theorem records_create (r : Raster) :
    records (create_geodataframe_with_multipolygons r) =
      (groupByLabel (traceShapes r)).map (fun p => (p.1, geometryFor p.2)) := by
  unfold records create_geodataframe_with_multipolygons
  simp [List.zip_map']

/-! ### Lemmas about stride slicing -/

/-- Element `i` of `xs[::n]` is element `n*i` of `xs` (for a positive
stride). -/
theorem everyNth_getElem? (n : Nat) (hn : 1 ≤ n) (xs : List α) (i : Nat) :
    (everyNth n xs)[i]? = xs[n * i]? := by
  induction i generalizing xs with
  | zero =>
    cases xs with
    | nil => simp [everyNth]
    | cons x xs => simp [everyNth]
  | succ i ih =>
    cases xs with
    | nil => simp [everyNth]
    | cons x xs =>
      rw [everyNth]
      have h2 : n * (i + 1) = (n - 1 + n * i) + 1 := by
        rw [Nat.mul_succ]
        omega
      rw [h2, List.getElem?_cons_succ, List.getElem?_cons_succ, ih,
        List.getElem?_drop]

/-- Composing stride slicings multiplies the strides. -/
theorem everyNth_everyNth (m n : Nat) (hm : 1 ≤ m) (hn : 1 ≤ n)
    (xs : List α) : everyNth m (everyNth n xs) = everyNth (n * m) xs := by
  apply List.ext_getElem?
  intro i
  rw [everyNth_getElem? m hm, everyNth_getElem? n hn,
    everyNth_getElem? (n * m) (Nat.le_trans hn (Nat.le_mul_of_pos_right n hm)) xs i,
    Nat.mul_assoc]

/-- Stride slicing commutes with mapping a function over the list. -/
theorem everyNth_map (n : Nat) (hn : 1 ≤ n) (f : α → β) (xs : List α) :
    everyNth n (xs.map f) = (everyNth n xs).map f := by
  apply List.ext_getElem?
  intro i
  rw [everyNth_getElem? n hn, List.getElem?_map, List.getElem?_map,
    everyNth_getElem? n hn]

/-- Composing 2-D stride slicings multiplies the strides. -/
theorem strideSlice2D_strideSlice2D (m n : Nat) (hm : 1 ≤ m) (hn : 1 ≤ n)
    (a : List (List Int)) :
    strideSlice2D m (strideSlice2D n a) = strideSlice2D (n * m) a := by
  unfold strideSlice2D
  rw [everyNth_map m hm, everyNth_everyNth m n hm hn, List.map_map]
  congr 1
  funext row
  exact everyNth_everyNth m n hm hn row

/-! ### Remaining structural lemmas -/

/-- Every modelled mask has at least two dimensions (`imread` of a TIFF
never yields less). -/
theorem NDMask.two_le_ndim (m : NDMask) : 2 ≤ m.ndim := by
  induction m with
  | twoD r => simp [ndim]
  | stacked first nrest ih => simp only [ndim]; omega

/-- A fragment list that is not a singleton is wrapped as a MultiPolygon. -/
theorem geometryFor_of_length_ne_one (fs : List (List Cell))
    (h : fs.length ≠ 1) : geometryFor fs = Geometry.multiPolygon fs := by
  match fs with
  | [] => rfl
  | [f] => simp at h
  | f :: g :: t => rfl

/-! ### Claim theorems -/

/-- C1: the label aggregation produces exactly one output record per
distinct non-zero value of the raster — a value is a label of the output
iff it is a non-zero entry of the raster, the label column is
duplicate-free, and an all-zero raster yields an empty output. -/
theorem aggregation_label_set_exact (r : Raster) :
    (∀ v : Int,
      v ∈ (create_geodataframe_with_multipolygons r).cellIds ↔
        (v ≠ 0 ∧ v ∈ r.flatten))
    ∧ (create_geodataframe_with_multipolygons r).cellIds.Nodup
    ∧ ((∀ v ∈ r.flatten, v = 0) →
        records (create_geodataframe_with_multipolygons r) = []) := by
  have hkeys : (create_geodataframe_with_multipolygons r).cellIds =
      firstSeenOrder ((traceShapes r).map (fun p => p.2)) :=
    groupByLabel_keys (traceShapes r)
  have hmem : ∀ v : Int,
      v ∈ (create_geodataframe_with_multipolygons r).cellIds ↔
        (v ≠ 0 ∧ v ∈ r.flatten) := by
    intro v
    rw [hkeys, firstSeenOrder, mem_foldl_firstSeenStep]
    simp only [List.not_mem_nil, false_or]
    constructor
    · intro hv
      rcases List.mem_map.mp hv with ⟨p, hp, hpv⟩
      rcases traceAux_label_sound r (allCells r) [] p hp with ⟨h1, h2⟩
      exact ⟨hpv ▸ h1, hpv ▸ h2⟩
    · rintro ⟨hv0, hvmem⟩
      rcases exists_cell_of_mem_flatten r v hvmem with ⟨c, hcall, hcv⟩
      have := traceAux_label_complete r (allCells r) [] c hcall
        (by rwa [hcv]) (by simp)
      rwa [hcv] at this
  refine ⟨hmem, ?_, ?_⟩
  · rw [hkeys]
    exact nodup_foldl_firstSeenStep _ [] List.nodup_nil
  · intro h0
    have hnil : (create_geodataframe_with_multipolygons r).cellIds = [] := by
      apply List.eq_nil_iff_forall_not_mem.mpr
      intro v hv
      rcases (hmem v).mp hv with ⟨hv0, hvmem⟩
      exact hv0 (h0 v hvmem)
    rw [records, hnil]
    simp

/-- Witness for C1 at the all-zero (ragged) raster `[[0,0],[0]]`. -/
theorem aggregation_label_set_exact_witness :
    records (create_geodataframe_with_multipolygons [[0,0],[0]]) = [] :=
  (aggregation_label_set_exact [[0,0],[0]]).2.2 (by decide)

/-- C2: for every label in the output, if exactly one fragment was traced
for it the output geometry is that polygon, and otherwise it is a
multi-part geometry holding all of its traced fragments as distinct parts
(no union of boundaries); the raster `[[3,0,3]]`, with two disjoint
components of label 3, yields exactly one record whose geometry has the
two parts `[(0,0)]` and `[(0,2)]`. -/
theorem per_label_fragment_geometry (r : Raster) (v : Int)
    (hv : v ∈ (create_geodataframe_with_multipolygons r).cellIds) :
    (∀ f, ((traceShapes r).filter (fun p => p.2 = v)).map (fun p => p.1) = [f] →
        (v, Geometry.polygon f) ∈
          records (create_geodataframe_with_multipolygons r))
    ∧ (∀ fs, ((traceShapes r).filter (fun p => p.2 = v)).map (fun p => p.1) = fs →
        fs.length ≠ 1 →
        (v, Geometry.multiPolygon fs) ∈
          records (create_geodataframe_with_multipolygons r))
    ∧ records (create_geodataframe_with_multipolygons [[3,0,3]]) =
        [(3, Geometry.multiPolygon [[(0,0)],[(0,2)]])] := by
  have hv' : v ∈ (groupByLabel (traceShapes r)).map (fun p => p.1) := hv
  have hment : (v, groupFrags (groupByLabel (traceShapes r)) v) ∈
      groupByLabel (traceShapes r) := mem_entry_of_mem_keys _ v hv'
  have hrec : (v, geometryFor (groupFrags (groupByLabel (traceShapes r)) v)) ∈
      records (create_geodataframe_with_multipolygons r) := by
    rw [records_create]
    exact List.mem_map_of_mem (fun p => (p.1, geometryFor p.2)) hment
  have hfr : groupFrags (groupByLabel (traceShapes r)) v =
      ((traceShapes r).filter (fun p => p.2 = v)).map (fun p => p.1) :=
    groupFrags_groupByLabel _ v
  refine ⟨?_, ?_, by decide⟩
  · intro f hf
    rw [hfr, hf] at hrec
    exact hrec
  · intro fs hfs hlen
    rw [hfr, hfs, geometryFor_of_length_ne_one fs hlen] at hrec
    exact hrec

/-- Witness for C2: the two-disjoint-components raster `[[3,0,3]]`, label 3
(two traced fragments, so the non-singleton branch applies). -/
theorem per_label_fragment_geometry_witness :
    records (create_geodataframe_with_multipolygons [[3,0,3]]) =
      [(3, Geometry.multiPolygon [[(0,0)],[(0,2)]])] :=
  (per_label_fragment_geometry [[3,0,3]] 3 (by decide)).2.2

/-- C3 counterexample: a 3-dimensional mask is not a precondition violation
of `process_mask` — the call succeeds without any caller-side reduction,
because `process_mask` itself slices off the first channel. -/
theorem ndim_reduction_counterexample :
    (NDMask.stacked (NDMask.twoD [[0,5]]) 0).ndim ≠ 2
    ∧ (process_mask (NDMask.stacked (NDMask.twoD [[0,5]]) 0)).isSome = true := by
  constructor
  · decide
  · decide

/-- C3 (amended): the aggregation core itself requires a 2-D raster, but
`process_mask` internally reduces a higher-dimensional mask by selecting
the first channel once — so a 3-D mask is handled internally (its first
channel is aggregated) and only masks of dimensionality other than 2 or 3
fail. -/
theorem process_mask_dimension_behavior (m : NDMask) (r : Raster) :
    ((process_mask m).isSome = true ↔ (m.ndim = 2 ∨ m.ndim = 3))
    ∧ process_mask (NDMask.twoD r) =
        some (create_geodataframe_with_multipolygons r)
    ∧ process_mask (NDMask.stacked (NDMask.twoD r) 0) =
        some (create_geodataframe_with_multipolygons r) := by
  refine ⟨?_, rfl, rfl⟩
  cases m with
  | twoD r' => simp [process_mask, NDMask.ndim]
  | stacked first nrest =>
    cases first with
    | twoD r' => simp [process_mask, NDMask.ndim, NDMask.sliceFirst]
    | stacked f n =>
      have h2 := NDMask.two_le_ndim f
      have hcond : (NDMask.stacked (NDMask.stacked f n) nrest).ndim > 2 := by
        simp only [NDMask.ndim]
        omega
      simp only [process_mask, hcond, if_pos, NDMask.sliceFirst]
      simp only [NDMask.ndim, Option.isSome_none]
      constructor
      · intro hfalse
        exact absurd hfalse (by simp)
      · intro hor
        omega

/-- C4: the output rows appear in first-seen order of labels as produced by
the shape trace — the label column is exactly the deduplicated trace-label
sequence in first-occurrence order, with one geometry per row; on the
raster `[[0,2,1]]` the order is `[2, 1]`, not the sorted `[1, 2]`. -/
theorem output_row_order (r : Raster) :
    (create_geodataframe_with_multipolygons r).cellIds =
      firstSeenOrder ((traceShapes r).map (fun p => p.2))
    ∧ (create_geodataframe_with_multipolygons r).geometries.length =
      (create_geodataframe_with_multipolygons r).cellIds.length
    ∧ (create_geodataframe_with_multipolygons [[0,2,1]]).cellIds = [2, 1] := by
  refine ⟨groupByLabel_keys (traceShapes r), ?_, by decide⟩
  simp [create_geodataframe_with_multipolygons]

/-- C5: on the raster `[[0,1,1],[0,1,1],[2,0,0]]` the output has exactly a
record for label 1 whose geometry is the single polygon covering the 2×2
block at rows 0–1, columns 1–2 (cells (0,1), (1,1), (0,2), (1,2)), and a
record for label 2 whose geometry is the single-cell polygon at row 2,
column 0; there is no record for label 0. -/
theorem concrete_raster_scenario :
    records (create_geodataframe_with_multipolygons [[0,1,1],[0,1,1],[2,0,0]]) =
      [(1, Geometry.polygon [(0,1),(1,1),(0,2),(1,2)]),
       (2, Geometry.polygon [(2,0)])]
    ∧ (0 : Int) ∉
        (create_geodataframe_with_multipolygons [[0,1,1],[0,1,1],[2,0,0]]).cellIds := by
  constructor
  · decide
  · decide

/-- C6: the aggregation is a deterministic pure function of its input
raster — the embedding is effect-free, mirroring the source, which reads
no state outside its locals — so two runs on the same raster produce the
same table, and in particular the same (label, geometry) pairs. -/
theorem aggregation_deterministic (r1 r2 : Raster) (h : r1 = r2) :
    records (create_geodataframe_with_multipolygons r1) =
      records (create_geodataframe_with_multipolygons r2)
    ∧ create_geodataframe_with_multipolygons r1 =
      create_geodataframe_with_multipolygons r2 := by
  subst h
  exact ⟨rfl, rfl⟩

/-- Witness for C6: two runs on the raster `[[0,7]]` agree. -/
theorem aggregation_deterministic_witness :
    records (create_geodataframe_with_multipolygons [[0,7]]) =
      records (create_geodataframe_with_multipolygons [[0,7]])
    ∧ create_geodataframe_with_multipolygons [[0,7]] =
      create_geodataframe_with_multipolygons [[0,7]] :=
  aggregation_deterministic [[0,7]] [[0,7]] rfl

/-- C7: both entry points stamp the constant CRS identifier "EPSG:4326"
onto the output table, for every input raster and mask. -/
theorem crs_fixed_default (r : Raster) (m : NDMask) (g : GeoDataFrame)
    (h : process_mask m = some g) :
    (create_geodataframe_with_multipolygons r).crs = "EPSG:4326"
    ∧ g.crs = "EPSG:4326" := by
  refine ⟨rfl, ?_⟩
  cases m with
  | twoD r' =>
    simp only [process_mask, NDMask.ndim, Nat.lt_irrefl, if_false,
      Option.some.injEq] at h
    subst h
    rfl
  | stacked first nrest =>
    cases first with
    | twoD r' =>
      simp only [process_mask, NDMask.ndim, NDMask.sliceFirst,
        Nat.lt_add_one, if_true, Option.some.injEq] at h
      subst h
      rfl
    | stacked f n =>
      have hcond : (NDMask.stacked (NDMask.stacked f n) nrest).ndim > 2 := by
        have := NDMask.two_le_ndim f
        simp only [NDMask.ndim]
        omega
      simp only [process_mask, if_pos hcond, NDMask.sliceFirst] at h
      cases h

/-- Witness for C7 at the raster `[[4]]` and the 2-D mask holding it. -/
theorem crs_fixed_default_witness :
    (create_geodataframe_with_multipolygons [[4]]).crs = "EPSG:4326"
    ∧ (create_geodataframe_with_multipolygons [[4]]).crs = "EPSG:4326" :=
  crs_fixed_default [[4]] (NDMask.twoD [[4]])
    (create_geodataframe_with_multipolygons [[4]]) rfl

/-- C8: for every runtime maximum label value in the unsigned 64-bit range
(the only values a numpy integer array can hold), the cast cascade of
`expand_mask` selects exactly the narrowest unsigned width whose maximum
is at least that value: uint8 up to 255, else uint16 up to 65535, else
uint32 up to 2^32 - 1, else uint64. -/
theorem dtype_narrowest_width (m : Nat) (h : m ≤ dtypeMax Dtype.uint64) :
    select_dtype m = some (choose_width m)
    ∧ ∀ d : Dtype, select_dtype m = some d →
        m ≤ dtypeMax d ∧ ∀ d' : Dtype, m ≤ dtypeMax d' → dtypeMax d ≤ dtypeMax d' := by
  by_cases h1 : m ≤ 255
  · constructor
    · simp [select_dtype, choose_width, dtypeMax, h1]
    · intro d hd
      simp only [select_dtype, dtypeMax, if_pos h1, Option.some.injEq] at hd
      subst hd
      refine ⟨h1, ?_⟩
      intro d' hd'
      cases d' <;> simp [dtypeMax]
  · by_cases h2 : m ≤ 65535
    · constructor
      · simp [select_dtype, choose_width, dtypeMax, h1, h2]
      · intro d hd
        simp only [select_dtype, dtypeMax, if_neg h1, if_pos h2,
          Option.some.injEq] at hd
        subst hd
        refine ⟨h2, ?_⟩
        intro d' hd'
        cases d' <;> simp [dtypeMax] at hd' ⊢ <;> omega
    · by_cases h3 : m ≤ 4294967295
      · constructor
        · simp [select_dtype, choose_width, dtypeMax, h1, h2, h3]
        · intro d hd
          simp only [select_dtype, dtypeMax, if_neg h1, if_neg h2, if_pos h3,
            Option.some.injEq] at hd
          subst hd
          refine ⟨h3, ?_⟩
          intro d' hd'
          cases d' <;> simp [dtypeMax] at hd' ⊢ <;> omega
      · simp only [dtypeMax] at h
        constructor
        · simp [select_dtype, choose_width, dtypeMax, h1, h2, h3, h]
        · intro d hd
          simp only [select_dtype, dtypeMax, if_neg h1, if_neg h2, if_neg h3,
            if_pos h, Option.some.injEq] at hd
          subst hd
          refine ⟨h, ?_⟩
          intro d' hd'
          cases d' <;> simp [dtypeMax] at hd' ⊢ <;> omega

/-- Witness for C8 at the maximum label value 300, which selects uint16. -/
theorem dtype_narrowest_width_witness :
    select_dtype 300 = some (choose_width 300) :=
  (dtype_narrowest_width 300 (by decide)).1

/-- C9: the validation of `downscale_dask` raises exactly when the number
of factors equals the array's dimensionality — the matched-length calls its
own error message describes as required are rejected, and every
mismatched-length call passes. -/
theorem downscale_factors_assert_inverted (shape : List Nat)
    (factors : List ℚ) :
    (downscale_dask_lenCheck shape factors = false ↔
      factors.length = shape.length)
    ∧ (downscale_dask_lenCheck shape factors = true ↔
      factors.length ≠ shape.length) := by
  constructor
  · simp [downscale_dask_lenCheck]
  · simp [downscale_dask_lenCheck]

/-- C10: writing pyramid level k by slicing the base layer with stride
2^(k+1) (first definition of `scale_channel_and_write`) and by applying
stride-2 slicing k+1 times (second, shadowing definition) produce the same
array, for every 2-D base layer and every level. -/
theorem pyramid_slicing_schemes_equal (a : List (List Int)) (k : Nat) :
    (strideSlice2D 2)^[k + 1] a = strideSlice2D (2 ^ (k + 1)) a := by
  induction k with
  | zero =>
    simp [Function.iterate_one, pow_one]
  | succ k ih =>
    rw [Function.iterate_succ_apply', ih,
      strideSlice2D_strideSlice2D 2 (2 ^ (k + 1)) (by omega) Nat.one_le_two_pow,
      ← pow_succ]
